import Mathlib

/-!
Verification development for the Salam Center events scraper
(`scrape_salam_events.py`): a shallow embedding of the scraper's data
model and operations, followed by theorems about the claims of the
specification.  Python strings are modelled as Lean `String`s (operated
on through their `List Char` data), timezone-aware datetimes as a UTC
instant in seconds paired with a display offset, and fallible
operations return `Option`.
-/

namespace Salam

/-! ## Python string primitives

Small executable models of the Python `str` operations the scraper
uses.  They work on `String.data` so that every operation is a
structural recursion over `List Char` and evaluates inside the kernel.
-/

/-- Characters treated as whitespace by Python's `str.strip`, `str.split()`
and the regex class `\s` (space, tab, newline, carriage return, vertical
tab, form feed). -/
def pyIsSpace (c : Char) : Bool :=
  c = ' ' || c = '\t' || c = '\n' || c = '\r' || c = Char.ofNat 11 || c = Char.ofNat 12

/-- Model of Python `str.split(sep)` for a one-character separator, on
character lists: `"".split(sep) = [""]`, and empty fields are kept. -/
def pySplitChar (sep : Char) : List Char → List (List Char)
  | [] => [[]]
  | c :: rest =>
    match pySplitChar sep rest with
    | [] => [[]]
    | h :: t => if c = sep then [] :: h :: t else (c :: h) :: t

/-- Model of Python `str.split(sep)` for a one-character separator. -/
def pySplit (s : String) (sep : Char) : List String :=
  (pySplitChar sep s.data).map (fun cs => ⟨cs⟩)

/-- Model of Python `str.startswith`. -/
def pyStartsWith (s pre : String) : Bool :=
  pre.data.isPrefixOf s.data

/-- Model of Python slicing `s[n:]`. -/
def pyDrop (s : String) (n : Nat) : String :=
  ⟨s.data.drop n⟩

/-- Model of Python `str.strip()` (no argument: strips whitespace on
both sides). -/
def pyStrip (s : String) : String :=
  ⟨((s.data.dropWhile pyIsSpace).reverse.dropWhile pyIsSpace).reverse⟩

/-- Model of Python `sep.join(xs)`. -/
def pyJoin (xs : List String) (sep : String) : String :=
  ⟨List.intercalate sep.data (xs.map String.data)⟩

/-- Model of Python `str.split()` with no argument: split on runs of
whitespace, discarding empty fields. -/
def pySplitWS (s : String) : List String :=
  ((pySplitChar ' ' ((s.data.map (fun c => if pyIsSpace c then ' ' else c)))).filter
    (fun cs => cs ≠ [])).map (fun cs => ⟨cs⟩)

/-- Number of times a (nonempty) pattern occurs in a character list,
counting every starting position; models Python `str.count` for the
patterns used here (which cannot self-overlap). -/
def countOccur (pat : List Char) : List Char → Nat
  | [] => 0
  | c :: rest => (if pat.isPrefixOf (c :: rest) then 1 else 0) + countOccur pat rest

/-- Substring occurrence count on `String`s. -/
def countSub (s pat : String) : Nat :=
  countOccur pat.data s.data

/-! ## Calendar arithmetic

Civil-date conversions used to model `datetime` arithmetic and
`strftime` formatting.  Instants are seconds since the Unix epoch; the
formatting functions are intended for post-epoch instants (every date
this program handles). -/

/-- Gregorian leap-year test. -/
def isLeap (y : Nat) : Bool :=
  (y % 4 = 0 && y % 100 ≠ 0) || y % 400 = 0

/-- Number of days in a month (`1 ≤ m ≤ 12`). -/
def daysInMonth (y m : Nat) : Nat :=
  if m = 2 then (if isLeap y then 29 else 28)
  else if m = 4 || m = 6 || m = 9 || m = 11 then 30
  else 31

/-- Days from 0000-03-01 to the given proleptic Gregorian date
(valid for years ≥ 1); the standard era/day-of-era computation. -/
def ratadie (y m d : Nat) : Nat :=
  let y' := if m ≤ 2 then y - 1 else y
  let era := y' / 400
  let yoe := y' % 400
  let mp := if m > 2 then m - 3 else m + 9
  let doy := (153 * mp + 2) / 5 + d - 1
  let doe := yoe * 365 + yoe / 4 - yoe / 100 + doy
  era * 146097 + doe

/-- Days since the Unix epoch (1970-01-01) of a proleptic Gregorian
date, as an integer. -/
def daysFromCivil (y m d : Nat) : Int :=
  (ratadie y m d : Int) - 719468

/-- Inverse of `daysFromCivil` for non-negative day counts: the civil
date `(year, month, day)` of a day index counted from 1970-01-01. -/
def civilFromDays (z : Nat) : Nat × Nat × Nat :=
  let z' := z + 719468
  let era := z' / 146097
  let doe := z' % 146097
  let yoe := (doe - doe / 1460 + doe / 36524 - doe / 146096) / 365
  let y := yoe + era * 400
  let doy := doe - (365 * yoe + yoe / 4 - yoe / 100)
  let mp := (5 * doy + 2) / 153
  let d := doy - (153 * mp + 2) / 5 + 1
  let m := if mp < 10 then mp + 3 else mp - 9
  (if m ≤ 2 then y + 1 else y, m, d)

/-- Day of the week (0 = Sunday) of a proleptic Gregorian date. -/
def dowSun0 (y m d : Nat) : Nat :=
  (ratadie y m d + 3) % 7

/-- A naive (timezone-free) civil datetime, as produced by Python
`datetime.strptime` before localization. -/
structure Naive where
  year : Nat
  month : Nat
  day : Nat
  hour : Nat
  minute : Nat
  second : Nat
  deriving Repr, DecidableEq

/-- Seconds since the Unix epoch of a naive datetime read as UTC. -/
def naiveSecs (t : Naive) : Int :=
  86400 * daysFromCivil t.year t.month t.day + (t.hour * 3600 + t.minute * 60 + t.second : Nat)

/-- Left-pads a natural number with zeros to the given width. -/
def padZeros (w n : Nat) : String :=
  let s := Nat.repr n
  ⟨List.replicate (w - s.length) '0' ++ s.data⟩

/-- Civil UTC field breakdown `(y, m, d, hh, mm, ss)` of a non-negative
instant. -/
def civilOfSecs (t : Int) : Nat × Nat × Nat × Nat × Nat × Nat :=
  let n := t.toNat
  let (y, m, d) := civilFromDays (n / 86400)
  let r := n % 86400
  (y, m, d, r / 3600, r % 3600 / 60, r % 60)

/-- Model of `dt.astimezone(pytz.utc).strftime('%Y%m%dT%H%M%SZ')`:
the canonical compact UTC rendering of an instant. -/
def formatUTC (t : Int) : String :=
  let (y, m, d, hh, mm, ss) := civilOfSecs t
  padZeros 4 y ++ padZeros 2 m ++ padZeros 2 d ++ "T" ++
    padZeros 2 hh ++ padZeros 2 mm ++ padZeros 2 ss ++ "Z"

/-- Compact 14-digit rendering of an instant's civil fields, used to
model `dt.strftime('%Y%m%d%H%M%S')` on the local representation. -/
def formatCompact14 (t : Int) : String :=
  let (y, m, d, hh, mm, ss) := civilOfSecs t
  padZeros 4 y ++ padZeros 2 m ++ padZeros 2 d ++
    padZeros 2 hh ++ padZeros 2 mm ++ padZeros 2 ss

/-! ## Timezone model

Modelled from `pytz.timezone('America/Los_Angeles')`: standard offset
UTC−8, daylight offset UTC−7, with the post-2007 United States rule
(DST from 02:00 on the second Sunday of March to 02:00 on the first
Sunday of November); `localize` resolves ambiguous and nonexistent wall
times to standard time, matching `is_dst=False`, pytz's default. -/

/-- A timezone-aware Python datetime: the instant it denotes (seconds
since the Unix epoch, UTC) and the offset (seconds east of UTC) used
for its local civil rendering. -/
structure PyDT where
  utc : Int
  tzOffset : Int
  deriving Repr, DecidableEq

/-- Day of the month of the second Sunday of March. -/
def secondSundayMarch (y : Nat) : Nat :=
  1 + (7 - dowSun0 y 3 1) % 7 + 7

/-- Day of the month of the first Sunday of November. -/
def firstSundayNov (y : Nat) : Nat :=
  1 + (7 - dowSun0 y 11 1) % 7

/-- Whether a naive wall-clock time falls in Pacific daylight time
under `is_dst=False` disambiguation (ambiguous and nonexistent times
resolve to standard time). -/
def inDSTWall (t : Naive) : Bool :=
  let y := t.year
  decide (naiveSecs { year := y, month := 3, day := secondSundayMarch y,
                      hour := 3, minute := 0, second := 0 } ≤ naiveSecs t ∧
          naiveSecs t < naiveSecs { year := y, month := 11, day := firstSundayNov y,
                                    hour := 1, minute := 0, second := 0 })

/-- Model of `pytz.timezone('America/Los_Angeles').localize(naive)`. -/
def localizeLA (t : Naive) : PyDT :=
  let off : Int := if inDSTWall t then -25200 else -28800
  { utc := naiveSecs t - off, tzOffset := off }

/-- The America/Los_Angeles UTC offset in effect at a given instant. -/
def laOffsetAt (u : Int) : Int :=
  let y := (civilFromDays (u.toNat / 86400)).1
  let dstStart := naiveSecs { year := y, month := 3, day := secondSundayMarch y,
                              hour := 2, minute := 0, second := 0 } + 28800
  let dstEnd := naiveSecs { year := y, month := 11, day := firstSundayNov y,
                            hour := 2, minute := 0, second := 0 } + 25200
  if dstStart ≤ u ∧ u < dstEnd then -25200 else -28800

/-- Model of `dt.astimezone(tz)` for America/Los_Angeles applied to an
instant: the instant is unchanged, the display offset becomes the
zone's offset at that instant. -/
def mkLAInstant (u : Int) : PyDT :=
  { utc := u, tzOffset := laOffsetAt u }

/-- Model of `aware_dt + timedelta(seconds := n)`: Python adds to the
civil fields and keeps `tzinfo`, which shifts the denoted instant by
`n` while leaving the display offset unchanged. -/
def addSeconds (t : PyDT) (n : Int) : PyDT :=
  { t with utc := t.utc + n }

/-! ## Date parsing -/

/-- Numeric value of a decimal digit character. -/
def digitVal (c : Char) : Nat := c.toNat - 48

/-- Parses the month field as `datetime.strptime`'s `%m` does: the
regex alternation `1[0-2] | 0[1-9] | [1-9]`, returning the value and
the unconsumed characters. -/
def parseMonthField : List Char → Option (Nat × List Char)
  | '1' :: c :: rest =>
    if c = '0' || c = '1' || c = '2' then some (10 + digitVal c, rest)
    else some (1, c :: rest)
  | '0' :: c :: rest =>
    if '1' ≤ c ∧ c ≤ '9' then some (digitVal c, rest) else none
  | c :: rest =>
    if '1' ≤ c ∧ c ≤ '9' then some (digitVal c, rest) else none
  | [] => none

/-- Parses the day field as `%d` does: the regex alternation
`3[01] | [12]\d | 0[1-9] | [1-9]`. -/
def parseDayField : List Char → Option (Nat × List Char)
  | '3' :: c :: rest =>
    if c = '0' || c = '1' then some (30 + digitVal c, rest)
    else some (3, c :: rest)
  | c1 :: c2 :: rest =>
    if (c1 = '1' || c1 = '2') && c2.isDigit then
      some (10 * digitVal c1 + digitVal c2, rest)
    else if c1 = '0' ∧ '1' ≤ c2 ∧ c2 ≤ '9' then some (digitVal c2, rest)
    else if '1' ≤ c1 ∧ c1 ≤ '9' then some (digitVal c1, c2 :: rest)
    else none
  | [c] => if '1' ≤ c ∧ c ≤ '9' then some (digitVal c, []) else none
  | [] => none

/-- Model of `datetime.strptime(s, '%Y-%m-%d')`: exactly four year
digits, the `%m`/`%d` alternations, the whole string consumed, and the
resulting civil date valid (day in range for the month, year ≥ 1);
returns the date at midnight. -/
def parseYMD (s : String) : Option Naive :=
  match s.data with
  | a :: b :: c :: d :: '-' :: rest =>
    if a.isDigit && b.isDigit && c.isDigit && d.isDigit then
      let y := 1000 * digitVal a + 100 * digitVal b + 10 * digitVal c + digitVal d
      match parseMonthField rest with
      | some (m, '-' :: rest2) =>
        match parseDayField rest2 with
        | some (dd, []) =>
          if 1 ≤ y ∧ dd ≤ daysInMonth y m then
            some { year := y, month := m, day := dd, hour := 0, minute := 0, second := 0 }
          else none
        | _ => none
      | _ => none
    else none
  | _ => none

/-- Month number of an English three-letter month abbreviation,
case-insensitively. -/
def monthNum (s : String) : Option Nat :=
  let l : List Char := s.data.map Char.toLower
  if l = "jan".data then some 1 else if l = "feb".data then some 2
  else if l = "mar".data then some 3 else if l = "apr".data then some 4
  else if l = "may".data then some 5 else if l = "jun".data then some 6
  else if l = "jul".data then some 7 else if l = "aug".data then some 8
  else if l = "sep".data then some 9 else if l = "oct".data then some 10
  else if l = "nov".data then some 11 else if l = "dec".data then some 12
  else none

/-- Reads an all-digits token as a number. -/
def digitsToNat (s : String) : Option Nat :=
  if s.data ≠ [] && s.data.all Char.isDigit then
    some (s.data.foldl (fun n c => 10 * n + digitVal c) 0)
  else none

/-- Parses `HH:MM:SS` or `HH:MM`, with the field bounds `datetime`
enforces. -/
def parseHMS (s : String) : Option (Nat × Nat × Nat) :=
  match (pySplit s ':').mapM digitsToNat with
  | some [h, m, sec] => if h ≤ 23 ∧ m ≤ 59 ∧ sec ≤ 59 then some (h, m, sec) else none
  | some [h, m] => if h ≤ 23 ∧ m ≤ 59 then some (h, m, 0) else none
  | _ => none

/-- Offset in seconds east of UTC of an RFC 2822 zone token: `±HHMM`
or one of the zone names `email.utils.parsedate_tz` knows. -/
def tzOffsetOf (s : String) : Option Int :=
  match s.data with
  | '+' :: a :: b :: c :: d :: [] =>
    if a.isDigit && b.isDigit && c.isDigit && d.isDigit then
      some ((10 * digitVal a + digitVal b) * 3600 + (10 * digitVal c + digitVal d) * 60 : Nat)
    else none
  | '-' :: a :: b :: c :: d :: [] =>
    if a.isDigit && b.isDigit && c.isDigit && d.isDigit then
      some (-(((10 * digitVal a + digitVal b) * 3600 + (10 * digitVal c + digitVal d) * 60 : Nat) : Int))
    else none
  | _ =>
    if s = "UT" || s = "UTC" || s = "GMT" || s = "Z" then some 0
    else if s = "EST" then some (-18000) else if s = "EDT" then some (-14400)
    else if s = "CST" then some (-21600) else if s = "CDT" then some (-18000)
    else if s = "MST" then some (-25200) else if s = "MDT" then some (-21600)
    else if s = "PST" then some (-28800) else if s = "PDT" then some (-25200)
    else none

/-- English three-letter day-name test, case-insensitive. -/
def isDayName (s : String) : Bool :=
  let l := s.data.map Char.toLower
  l = "mon".data || l = "tue".data || l = "wed".data || l = "thu".data ||
    l = "fri".data || l = "sat".data || l = "sun".data

/-- Modelled from Python's `email.utils.parsedate_to_datetime` (stdlib),
for the RSS `pubDate` shapes this program meets: an optional leading
weekday, then `day monthname year time zone`, e.g.
`Thu, 25 Dec 2025 17:00:00 -0800`.  Two-digit years follow the RFC 2822
windowing rule.  A date without a zone makes Python fall back to the
host's local timezone, which is outside this model, so it is treated as
a parse failure here; the resulting instant is returned in seconds
since the epoch. -/
def parseRFC2822 (s : String) : Option Int :=
  let toks := pySplitWS s
  let toks :=
    match toks with
    | t :: rest =>
      if t.data.getLast? = some ',' || isDayName t then rest else toks
    | [] => []
  match toks with
  | [dd, mon, yyyy, time, zone] =>
    match digitsToNat dd, monthNum mon, digitsToNat yyyy, parseHMS time, tzOffsetOf zone with
    | some d, some m, some y0, some (h, mi, sec), some off =>
      let y := if y0 < 100 then (if y0 > 68 then y0 + 1900 else y0 + 2000) else y0
      if 1 ≤ d ∧ d ≤ daysInMonth y m then
        some (naiveSecs { year := y, month := m, day := d,
                          hour := h, minute := mi, second := sec } - off)
      else none
    | _, _, _, _, _ => none
  | _ => none

/-! ## HTML stripping

Modelled from CPython's `html.parser.HTMLParser` driving the program's
`MLStripper` (`strict = False`, `convert_charrefs = True`,
`handle_data` collects text): text up to each `<` is unescaped and
collected, tag constructs are skipped, a `<` that opens no construct is
collected as data, `script`/`style` content is collected raw, and — as
in `strip_html`, which never calls `close()` — an incomplete trailing
construct or a possibly-incomplete trailing character reference stays
buffered and is never emitted. -/

/-- Expansion of the named character references modelled here (the
table CPython resolves is far larger; these suffice for this feed). -/
def namedEntity (name : List Char) : Option (List Char) :=
  if name = "amp".data then some ['&']
  else if name = "lt".data then some ['<']
  else if name = "gt".data then some ['>']
  else if name = "quot".data then some ['"']
  else if name = "apos".data then some [Char.ofNat 39]
  else if name = "nbsp".data then some [Char.ofNat 160]
  else none

/-- Value of a hexadecimal digit character. -/
def hexVal (c : Char) : Nat :=
  if c.isDigit then c.toNat - 48
  else if 'a' ≤ c ∧ c ≤ 'f' then c.toNat - 87
  else if 'A' ≤ c ∧ c ≤ 'F' then c.toNat - 55
  else 0

/-- The character a numeric character reference denotes: the scalar
value when valid, U+FFFD otherwise (CPython's replacement for invalid
references, minus its windows-1252 compatibility table). -/
def charOfCodepoint (n : Nat) : Char :=
  if n < 0xd800 ∨ (0xe000 ≤ n ∧ n < 0x110000) then Char.ofNat n
  else Char.ofNat 0xfffd

/-- Attempts to read one character reference right after a `&`:
`#` digits `;`, `#x` hexdigits `;`, or a known name followed by `;`.
Returns the expansion and the unconsumed characters. -/
def parseCharref (cs : List Char) : Option (List Char × List Char) :=
  match cs with
  | '#' :: rest =>
    let (isHex, body) :=
      match rest with
      | 'x' :: r => (true, r)
      | 'X' :: r => (true, r)
      | _ => (false, rest)
    let digs := body.takeWhile (fun c => if isHex then c.isDigit || ('a' ≤ c ∧ c ≤ 'f') || ('A' ≤ c ∧ c ≤ 'F') else c.isDigit)
    match body.drop digs.length with
    | ';' :: rest2 =>
      if digs = [] then none
      else
        let n := digs.foldl (fun n c => (if isHex then 16 else 10) * n + hexVal c) 0
        some ([charOfCodepoint n], rest2)
    | _ => none
  | _ =>
    let name := cs.takeWhile (fun c => c.isAlpha || c.isDigit)
    match cs.drop name.length with
    | ';' :: rest2 =>
      match namedEntity name with
      | some exp => some (exp, rest2)
      | none => none
    | _ => none

/-- Fueled worker for `pyUnescape`. -/
def pyUnescapeF : Nat → List Char → List Char
  | 0, cs => cs
  | Nat.succ _, [] => []
  | Nat.succ fuel, c :: rest =>
    if c = '&' then
      match parseCharref rest with
      | some (exp, rest2) => exp ++ pyUnescapeF fuel rest2
      | none => c :: pyUnescapeF fuel rest
    else c :: pyUnescapeF fuel rest

/-- Model of `html.unescape` restricted to the references in
`namedEntity` and numeric references with a closing `;`. -/
def pyUnescape (cs : List Char) : List Char :=
  pyUnescapeF (cs.length + 1) cs

/-- Splits a character list at its first `<`: the text before it and,
when present, the remainder starting at the `<`. -/
def findLt : List Char → List Char × Option (List Char)
  | [] => ([], none)
  | c :: rest =>
    if c = '<' then ([], some (c :: rest))
    else
      match findLt rest with
      | (b, r) => (c :: b, r)

/-- The suffix of a character list starting at its last `&`, when any. -/
def lastAmpSuffix : List Char → Option (List Char)
  | [] => none
  | c :: rest =>
    match lastAmpSuffix rest with
    | some s => some s
    | none => if c = '&' then some (c :: rest) else none

/-- Whether trailing data holds a possibly-incomplete character
reference: a `&` within the final 34 characters with no whitespace or
`;` at or after it.  CPython then waits for more data, so `strip_html`
(which never closes the parser) drops that tail. -/
def ampPending (before : List Char) : Bool :=
  let w := before.drop (before.length - 34)
  match lastAmpSuffix w with
  | none => false
  | some suf => suf.all (fun c => !(pyIsSpace c || c = ';'))

/-- Splits at the first occurrence of a nonempty pattern: the part
before it and the remainder starting with the pattern. -/
def splitAtSub (pat : List Char) : List Char → Option (List Char × List Char)
  | [] => none
  | c :: rest =>
    if pat.isPrefixOf (c :: rest) then some ([], c :: rest)
    else
      match splitAtSub pat rest with
      | some (a, b) => some (c :: a, b)
      | none => none

/-- Skips to just past the first `>`. -/
def scanToGt : List Char → Option (List Char)
  | [] => none
  | c :: rest => if c = '>' then some rest else scanToGt rest

/-- Skips to just past the `>` that ends a start tag, treating quoted
stretches as opaque (a simplification of CPython's
`locatestarttagend_tolerant`, exact for tags without stray quotes). -/
def scanTagGtQ : Option Char → List Char → Option (List Char)
  | _, [] => none
  | some qc, c :: rest =>
    if c = qc then scanTagGtQ none rest else scanTagGtQ (some qc) rest
  | none, c :: rest =>
    if c = '>' then some rest
    else if c = '"' || c = Char.ofNat 39 then scanTagGtQ (some c) rest
    else scanTagGtQ none rest

/-- Characters that end a tag name (CPython's `tagfind_tolerant`
delimiter set). -/
def tagNameDelim (c : Char) : Bool :=
  c = ' ' || c = '\t' || c = '\n' || c = '\r' || c = Char.ofNat 12 ||
    c = '/' || c = '>' || c = Char.ofNat 0

/-- Reads a start tag given the characters after its `<` (the first of
which is a letter): returns the lowercased tag name and the characters
after the closing `>`, or nothing when the tag never closes. -/
def scanStart (after : List Char) : Option (List Char × List Char) :=
  match scanTagGtQ none
      (after.drop (after.takeWhile (fun c => !tagNameDelim c)).length) with
  | none => none
  | some rest2 =>
    some ((after.takeWhile (fun c => !tagNameDelim c)).map Char.toLower, rest2)

/-- Parser mode: ordinary content, or inside a CDATA content element
(`script`/`style`) whose raw text runs to the named closing tag. -/
inductive HMode where
  | normal
  | cdata (name : List Char)

/-- The marker that ends a CDATA content element. -/
def cdataClose (name : List Char) : List Char :=
  '<' :: '/' :: name

/-- Fueled model of `HTMLParser.goahead` specialised to `MLStripper`:
accumulates exactly the text `handle_data` receives. -/
def goahead : Nat → HMode → List Char → List Char → List Char
  | 0, _, acc, _ => acc
  | Nat.succ fuel, HMode.cdata name, acc, cs =>
    (match splitAtSub (cdataClose name) cs with
     | none => acc ++ cs
     | some (before, rest) =>
       match scanToGt rest with
       | none => acc ++ before
       | some rest2 => goahead fuel HMode.normal (acc ++ before) rest2)
  | Nat.succ fuel, HMode.normal, acc, cs =>
    (match findLt cs with
     | (before, none) => if ampPending before then acc else acc ++ pyUnescape before
     | (before, some rest) =>
       let acc2 := acc ++ pyUnescape before
       match rest with
       | '<' :: after =>
         (match after with
          | [] => acc2
          | a :: after' =>
            if a.isAlpha then
              (match scanStart after with
               | none => acc2
               | some (nm, rest2) =>
                 if nm = "script".data || nm = "style".data then
                   goahead fuel (HMode.cdata nm) acc2 rest2
                 else goahead fuel HMode.normal acc2 rest2)
            else if a = '/' then
              (match scanToGt after' with
               | none => acc2
               | some rest2 => goahead fuel HMode.normal acc2 rest2)
            else if ['!', '-', '-'].isPrefixOf after then
              (match splitAtSub ['-', '-', '>'] (after'.drop 2) with
               | none => acc2
               | some (_, rest2) => goahead fuel HMode.normal acc2 (rest2.drop 3))
            else if a = '?' then
              (match scanToGt after' with
               | none => acc2
               | some rest2 => goahead fuel HMode.normal acc2 rest2)
            else if a = '!' then
              (match scanToGt after' with
               | none => acc2
               | some rest2 => goahead fuel HMode.normal acc2 rest2)
            else goahead fuel HMode.normal (acc2 ++ ['<']) after)
       | _ => acc2)

/-- Model of the program's `strip_html`: feed the text to `MLStripper`
(without closing it) and join the collected data. -/
def strip_html (html : String) : String :=
  if html = "" then ""
  else ⟨goahead (html.data.length + 1) HMode.normal [] html.data⟩

/-! ## Location extraction

Model of `re.search(r'Location:?\s*([^\n]+)', description, re.IGNORECASE)`
followed by `.group(1).strip()`: the literal `Location` may match
anywhere (the pattern is not anchored to line starts), the colon is
optional, `\s*` is greedy with backtracking (and may cross newlines),
and the capture is a nonempty run of non-newline characters. -/

/-- Backtracking for `\s*([^\n]+)`: try consuming `k` whitespace
characters, longest first; on success capture the following run of
non-newline characters. -/
def wsCaptureAt : Nat → List Char → Option (List Char)
  | 0, cs =>
    (match cs with
     | [] => none
     | c :: _ => if c = '\n' then none else some (cs.takeWhile (fun x => x ≠ '\n')))
  | Nat.succ k, cs =>
    (match cs.drop (k + 1) with
     | [] => wsCaptureAt k cs
     | c :: _ =>
       if c = '\n' then wsCaptureAt k cs
       else some ((cs.drop (k + 1)).takeWhile (fun x => x ≠ '\n')))

/-- Matches `\s*([^\n]+)` at the start of the list. -/
def wsCapture (cs : List Char) : Option (List Char) :=
  wsCaptureAt (cs.takeWhile pyIsSpace).length cs

/-- Matches `:?\s*([^\n]+)` at the start of the list: the greedy
optional colon first, falling back to no colon. -/
def locMatchAfter (cs : List Char) : Option (List Char) :=
  match cs with
  | ':' :: rest =>
    (match wsCapture rest with
     | some g => some g
     | none => wsCapture cs)
  | _ => wsCapture cs

/-- Scans for the first position where the whole pattern matches,
case-insensitively on the literal `Location`. -/
def locSearch : List Char → Option (List Char)
  | [] => none
  | c :: rest =>
    if ("location".data).isPrefixOf (((c :: rest).take 8).map Char.toLower) then
      match locMatchAfter ((c :: rest).drop 8) with
      | some g => some g
      | none => locSearch rest
    else locSearch rest

/-- The location the extractor derives from a description: the first
regex match's capture, stripped; empty when there is no match. -/
def locationFromDescription (desc : String) : String :=
  match locSearch desc.data with
  | some g => pyStrip ⟨g⟩
  | none => ""

/-! ## Event extraction -/

/-- One parsed feed entry, as the fields `extract_event_details` reads
from a `feedparser` item: absent fields are the empty string, and
`contentValue` is the value of the first element of `content` (empty
when `content` is absent). -/
structure FeedItem where
  title : String
  published : String
  mec_startdate : String
  mec_enddate : String
  mec_location : String
  contentValue : String
  link : String
  deriving Repr

/-- The normalized event record `extract_event_details` produces (the
Python dict with keys title/start/end/location/description/url); `end_`
stands for the key `end`, a reserved word in Lean. -/
structure EventRecord where
  title : String
  start : PyDT
  end_ : PyDT
  location : String
  description : String
  url : String
  deriving Repr, DecidableEq

/-- Model of `SalamEventsScraper.parse_event_time`: parse the RFC 2822
`pubDate` and convert to America/Los_Angeles. -/
def parse_event_time (s : String) : Option PyDT :=
  (parseRFC2822 s).map mkLAInstant

/-- The start-resolution logic of `extract_event_details`: the standard
`published` date when present and parseable, else the MEC
`mec_startdate` at 09:00 local; `none` when the MEC field is present
but unparseable (skip) or when no date was found (skip). -/
def resolvedStart (i : FeedItem) : Option PyDT :=
  match (if i.published ≠ "" then parse_event_time i.published else none) with
  | some s => some s
  | none =>
    if i.mec_startdate ≠ "" then
      match parseYMD i.mec_startdate with
      | some n => some (localizeLA { n with hour := 9 })
      | none => none
    else none

/-- The end-time logic of `extract_event_details`: default to two
hours after the start, overridden by a present and parseable MEC
`mec_enddate` at 17:00 local; a present but unparseable end date keeps
the default. -/
def endOf (i : FeedItem) (s : PyDT) : PyDT :=
  if i.mec_enddate ≠ "" then
    match parseYMD i.mec_enddate with
    | some n => localizeLA { n with hour := 17 }
    | none => addSeconds s 7200
  else addSeconds s 7200

/-- The description logic of `extract_event_details`: the stripped
content value, empty when content is absent. -/
def descriptionOf (i : FeedItem) : String :=
  if i.contentValue ≠ "" then strip_html i.contentValue else ""

/-- The location logic of `extract_event_details`: the MEC location
field when nonempty, else the regex scan of the description. -/
def locationOf (i : FeedItem) : String :=
  if i.mec_location ≠ "" then i.mec_location
  else locationFromDescription (descriptionOf i)

/-- Model of `SalamEventsScraper.extract_event_details`. -/
def extract_event_details (i : FeedItem) : Option EventRecord :=
  if i.title = "" then none
  else
    match resolvedStart i with
    | none => none
    | some s =>
      some { title := i.title, start := s, end_ := endOf i s,
             location := locationOf i, description := descriptionOf i, url := i.link }

/-! ## Deduplication and the scrape loop -/

/-- Model of `SalamEventsScraper._event_exists`: membership of
`title|<canonical UTC start>` in the loaded key set. -/
def event_exists (existing : List String) (title : String) (start : PyDT) : Bool :=
  existing.contains (title ++ "|" ++ formatUTC start.utc)

/-- Model of `dict[key] = True`: inserts a key, keeping the dict's
first-insertion order and uniqueness. -/
def dictInsert (l : List String) (k : String) : List String :=
  if k ∈ l then l else l ++ [k]

/-- The line scan of `_load_existing_events`: registers `(in_event,
event_summary, event_dtstart)` over the file's lines, collecting a key
at each `END:VEVENT` whose summary and dtstart are nonempty. -/
def loadLoop : List String → Bool → String → String → List String → List String
  | [], _, _, _, acc => acc
  | line :: rest, inEvent, summary, dtstart, acc =>
    if pyStartsWith line "BEGIN:VEVENT" then loadLoop rest true "" "" acc
    else if pyStartsWith line "END:VEVENT" then
      loadLoop rest false summary dtstart
        (if summary ≠ "" ∧ dtstart ≠ "" then dictInsert acc (summary ++ "|" ++ dtstart) else acc)
    else if inEvent then
      (if pyStartsWith line "SUMMARY:" then loadLoop rest inEvent (pyDrop line 8) dtstart acc
       else if pyStartsWith line "DTSTART:" then loadLoop rest inEvent summary (pyDrop line 8) acc
       else loadLoop rest inEvent summary dtstart acc)
    else loadLoop rest inEvent summary dtstart acc

/-- Model of `SalamEventsScraper._load_existing_events`: `none` stands
for a missing (or unreadable) file, which yields the empty key set. -/
def load_existing_events : Option String → List String
  | none => []
  | some content => loadLoop (pySplit content '\n') false "" "" []

/-- The entry loop of `scrape_events`, with the `stop_scraping` flag:
a failed extraction skips the entry, a duplicate sets the flag (so the
next iteration breaks), a novel event is appended. -/
def scrapeLoop (existing : List String) : Bool → List FeedItem → List EventRecord
  | _, [] => []
  | true, _ :: _ => []
  | false, item :: rest =>
    match extract_event_details item with
    | none => scrapeLoop existing false rest
    | some ev =>
      if event_exists existing ev.title ev.start then scrapeLoop existing true rest
      else ev :: scrapeLoop existing false rest

/-- Model of `SalamEventsScraper.scrape_events` on an already-fetched,
already-parsed entry list (fetching and feed parsing are network I/O
outside the model; a fetch or parse failure yields the empty list). -/
def scrape_events (existing : List String) (items : List FeedItem) : List EventRecord :=
  scrapeLoop existing false items

/-! ## Calendar generation -/

/-- RFC 5545 text escaping as the ics-library serializer applies it to
summary/description/location values (backslash, semicolon, comma,
newline). -/
def escChar (c : Char) : List Char :=
  if c = '\\' then ['\\', '\\']
  else if c = ';' then ['\\', ';']
  else if c = ',' then ['\\', ',']
  else if c = '\n' then ['\\', 'n']
  else [c]

/-- Escapes a text value for a content line. -/
def escapeText (s : String) : String :=
  ⟨(s.data.map escChar).flatten⟩

/-- Hexadecimal digit character. -/
def hexDigitChar (n : Nat) : Char :=
  if n < 10 then Char.ofNat (48 + n) else Char.ofNat (87 + n)

/-- Eight lowercase hex digits of a value mod 2^32. -/
def toHex8 (n : Nat) : String :=
  ⟨((List.range 8).reverse).map (fun k => hexDigitChar (n / 16 ^ k % 16))⟩

/-- Modelled from `hashlib.md5(title).hexdigest()[:8]` (stdlib): a
stand-in 8-hex-character digest of the title.  No claim depends on the
digest values, only on the UID's shape. -/
def md5hex8 (s : String) : String :=
  toHex8 (s.data.foldl (fun h c => (h * 131 + c.toNat) % 4294967296) 5381)

/-- The description value `generate_ics` stores: the event description
and, when a URL is present, an appended `More info:` section, joined
with a newline. -/
def combinedDescription (e : EventRecord) : String :=
  pyJoin ((if e.description ≠ "" then [e.description] else []) ++
          (if e.url ≠ "" then ["\n\nMore info: " ++ e.url] else [])) "\n"

/-- Modelled from the ics library's event serializer: one `VEVENT`
block as a list of content lines.  Timestamps are rendered in
canonical compact UTC; the UID is the local compact start timestamp
plus the 8-character title digest, as `generate_ics` sets it.  (The
library's exact field order within a block is immaterial to every
claim.) -/
def eventBlockLines (e : EventRecord) : List String :=
  ["BEGIN:VEVENT",
   "DTSTART:" ++ formatUTC e.start.utc,
   "DTEND:" ++ formatUTC e.end_.utc,
   "SUMMARY:" ++ escapeText e.title,
   "DESCRIPTION:" ++ escapeText (combinedDescription e),
   "LOCATION:" ++ escapeText e.location,
   "UID:" ++ formatCompact14 (e.start.utc + e.start.tzOffset) ++ "-" ++ md5hex8 e.title,
   "END:VEVENT"]

/-- Modelled from `Calendar.serialize()` of the ics library: the
calendar wrapper lines around the event blocks.  The serialized string
is these lines joined by newlines, which `generate_ics` immediately
splits back apart; the model keeps the line list. -/
def serializeCalendarLines (evs : List EventRecord) : List String :=
  "BEGIN:VCALENDAR" :: "VERSION:2.0" :: "PRODID:ics.py - http://git.io/lLljaA" ::
    ((evs.map eventBlockLines).flatten ++ ["END:VCALENDAR"])

/-- The block-preserving scan of `generate_ics`: collects each
`BEGIN:VEVENT`..`END:VEVENT` run of lines verbatim (rejoined with the
newlines it was split on) and counts the blocks. -/
def genLoop : List String → Bool → List String → String → Nat → String × Nat
  | [], _, _, accText, count => (accText, count)
  | line :: rest, inEvent, cur, accText, count =>
    if pyStartsWith line "BEGIN:VEVENT" then genLoop rest true [line] accText count
    else if pyStartsWith line "END:VEVENT" then
      genLoop rest false [] (accText ++ pyJoin (cur ++ [line]) "\n" ++ "\n") (count + 1)
    else if inEvent then genLoop rest true (cur ++ [line]) accText count
    else genLoop rest inEvent cur accText count

/-- The existing-block text and count `generate_ics` re-reads from the
output file (`none` stands for a missing file). -/
def extractExisting : Option String → String × Nat
  | none => ("", 0)
  | some content => genLoop (pySplit content '\n') false [] "" 0

/-- The fixed calendar header `generate_ics` writes; `now` stands for
`datetime.now().isoformat()`. -/
def vcalHeader (now : String) : String :=
  "BEGIN:VCALENDAR\n" ++ "VERSION:2.0\n" ++ "PRODID:ics.py - http://git.io/lLljaA\n" ++
    "COMMENT:Generated at " ++ now ++ "\n"

/-- The per-line filter `generate_ics` applies to the serializer's
output: keep lines that are nonempty after stripping and are not
duplicate `VERSION:`/`PRODID:` header lines. -/
def keepLine (l : String) : Bool :=
  pyStrip l ≠ "" && !pyStartsWith l "VERSION:" && !pyStartsWith l "PRODID:"

/-- The validation `generate_ics` applies to each new event: skip it
iff its end precedes its begin.  (The missing-begin/end check cannot
fire: both fields are always present in an extracted record.) -/
def keepEvent (e : EventRecord) : Bool :=
  !decide (e.end_.utc < e.start.utc)

/-- Model of `SalamEventsScraper.generate_ics`: the full text written
to the output file, given the new events, the file's current content,
and the generation timestamp. -/
def generate_ics (now : String) (events : List EventRecord) (fileContent : Option String) :
    String :=
  let existingText := (extractExisting fileContent).1
  let lines := serializeCalendarLines (events.filter keepEvent)
  let body := ((lines.drop 3).dropLast).filter keepLine
  vcalHeader now ++ String.join (body.map (fun l => l ++ "\n")) ++ existingText ++
    "END:VCALENDAR\n"

/-! ## The orchestrator -/

/-- Model of `main`: load the dedup keys from the calendar file, scrape
the feed, and either exit 1 writing nothing (no new events and no
loaded keys) or write the merged calendar and exit 0.  The result is
the exit code and the written file content, when any. -/
def mainRun (now : String) (fileContent : Option String) (items : List FeedItem) :
    Nat × Option String :=
  let existing := load_existing_events fileContent
  let events := scrape_events existing items
  if events = [] ∧ existing = [] then (1, none)
  else (0, some (generate_ics now events fileContent))

/-! ## Specification-side definitions

Definitions written from the specification's words (not from the code),
used to state refinement claims and counterexamples against the
code-derived definitions above. -/

/-- Modelled from the spec's words for the location rule (claim C8):
scan the description line by line and take the first line beginning
with `Location` (case-insensitive, optional colon), the remainder of
that line trimmed. -/
def specLocationScan (desc : String) : String :=
  match (pySplit desc '\n').filter
      (fun l => ("location".data).isPrefixOf ((l.data.take 8).map Char.toLower)) with
  | [] => ""
  | l :: _ =>
    let r := l.data.drop 8
    let r := match r with | ':' :: t => t | _ => r
    pyStrip ⟨r⟩

/-- The text of the new-event blocks as written to the output file:
every block line followed by a newline, blocks in order. -/
def blocksText (evs : List EventRecord) : String :=
  String.join (((evs.map eventBlockLines).flatten).map (fun l => l ++ "\n"))

/-- A line that opens or closes a `VEVENT` block, by the loader's
prefix tests. -/
def isMarker (l : String) : Bool :=
  pyStartsWith l "BEGIN:VEVENT" || pyStartsWith l "END:VEVENT"

/-- The value of the last line of a region carrying the given field
prefix, with its 8-character prefix removed; a default when none. -/
def lastFieldD (region : List String) (pre dflt : String) : String :=
  region.foldl (fun s l => if pyStartsWith l pre then pyDrop l 8 else s) dflt

/-- Worker for `specBlocks`: the state is the line region of the block
currently open, when one is. -/
def specScan : List String → Option (List String) → List (String × String)
  | [], _ => []
  | l :: rest, none =>
    if pyStartsWith l "BEGIN:VEVENT" then specScan rest (some [])
    else specScan rest none
  | l :: rest, some region =>
    if pyStartsWith l "BEGIN:VEVENT" then specScan rest (some [])
    else if pyStartsWith l "END:VEVENT" then
      (lastFieldD region "SUMMARY:" "", lastFieldD region "DTSTART:" "") ::
        specScan rest none
    else specScan rest (some (region ++ [l]))

/-- Block-level reading of a calendar file's lines: each block opens at
a `BEGIN:VEVENT` line, restarts at a nested `BEGIN:VEVENT`, closes at
an `END:VEVENT` line, and yields the last `SUMMARY:`/`DTSTART:` values
of its region (empty when the line is missing).  A close without an
open block and an unclosed block yield nothing. -/
def specBlocks (lines : List String) : List (String × String) :=
  specScan lines none

/-- A fragment of markup input: literal text, an opening tag, or a
closing tag. -/
inductive HPiece where
  | txt (s : String)
  | tagO (name : String)
  | tagC (name : String)

/-- Renders a fragment back to markup source text. -/
def renderPiece : HPiece → String
  | HPiece.txt s => s
  | HPiece.tagO n => "<" ++ n ++ ">"
  | HPiece.tagC n => "</" ++ n ++ ">"

/-- Renders a fragment list to markup source text. -/
def renderPieces : List HPiece → String
  | [] => ""
  | p :: ps => renderPiece p ++ renderPieces ps

/-- The non-tag text of one fragment. -/
def textOfPiece : HPiece → String
  | HPiece.txt s => s
  | _ => ""

/-- The non-tag text segments of a fragment list, concatenated in
order. -/
def textsOf : List HPiece → String
  | [] => ""
  | p :: ps => textOfPiece p ++ textsOf ps

/-- Plain text: no angle brackets and no character references. -/
def plainText (s : String) : Bool :=
  s.data.all (fun c => c ≠ '<' && c ≠ '>' && c ≠ '&')

/-- A well-formed tag name for the positive stripping theorem:
nonempty, alphabetic, and not a CDATA content element. -/
def okTagName (n : String) : Bool :=
  n.data ≠ [] && n.data.all Char.isAlpha &&
    n.data.map Char.toLower ≠ "script".data && n.data.map Char.toLower ≠ "style".data

/-- Well-formedness of one fragment (text segments are nonempty). -/
def okPiece : HPiece → Bool
  | HPiece.txt s => plainText s && !(s == "")
  | HPiece.tagO n => okTagName n
  | HPiece.tagC n => okTagName n

/-- Whether a fragment is literal text. -/
def isTxt : HPiece → Bool
  | HPiece.txt _ => true
  | _ => false

/-- Well-formed fragment list: every fragment well-formed and text
segments maximal (no two adjacent text fragments). -/
def okPieces : List HPiece → Bool
  | [] => true
  | [p] => okPiece p
  | p :: q :: rest => okPiece p && !(isTxt p && isTxt q) && okPieces (q :: rest)

/-! ## Helper lemmas -/

/-- Once the stop flag is set, the scrape loop emits nothing more. -/
theorem scrapeLoop_stop (existing : List String) (l : List FeedItem) :
    scrapeLoop existing true l = [] := by
  cases l <;> rfl

/-- The empty string never parses as a bare date. -/
theorem parseYMD_empty : parseYMD "" = none := rfl

/-! ## Claim C1 -/

/-- C1: `scrape_events` returns exactly the successfully extracted
events that precede the first extracted event whose dedup key is
already known, in feed order; at the first duplicate it stops, so no
later entry contributes, even a novel one.  Formally the result is the
`takeWhile` of the extracted stream under the negated `_event_exists`
test. -/
theorem claim1_stop_on_first_duplicate (existing : List String) (items : List FeedItem) :
    scrape_events existing items =
      (items.filterMap extract_event_details).takeWhile
        (fun ev => !event_exists existing ev.title ev.start) := by
  unfold scrape_events
  induction items with
  | nil => rfl
  | cons item rest ih =>
    rw [List.filterMap_cons]
    cases hx : extract_event_details item with
    | none =>
      show scrapeLoop existing false (item :: rest) = _
      rw [scrapeLoop, hx]
      exact ih
    | some ev =>
      show scrapeLoop existing false (item :: rest) = _
      rw [scrapeLoop, hx]
      cases hdup : event_exists existing ev.title ev.start with
      | true => simp [hdup, scrapeLoop_stop, List.takeWhile_cons]
      | false => simp [hdup, List.takeWhile_cons, ih]

/-! ## Claim C3 -/

/-- C3: duplicate detection depends only on the title and the start
instant — two records agreeing there get the same verdict whatever
their location, description or url — and the test is exactly
membership of `title|<canonical UTC start>` in the loaded key set. -/
theorem claim3_dedup_key_only (existing : List String) (e₁ e₂ : EventRecord)
    (ht : e₁.title = e₂.title) (hs : e₁.start.utc = e₂.start.utc) :
    event_exists existing e₁.title e₁.start = event_exists existing e₂.title e₂.start ∧
    ∀ t s, event_exists existing t s =
      existing.contains (t ++ "|" ++ formatUTC s.utc) := by
  refine ⟨?_, fun t s => rfl⟩
  unfold event_exists
  rw [ht, hs]

/-- Two records differing only in location, description and url. -/
def c3rec1 : EventRecord :=
  { title := "T", start := { utc := 100, tzOffset := -28800 },
    end_ := { utc := 200, tzOffset := -28800 },
    location := "A", description := "D1", url := "u1" }

/-- The same title and start as `c3rec1`, other fields changed. -/
def c3rec2 : EventRecord :=
  { title := "T", start := { utc := 100, tzOffset := -25200 },
    end_ := { utc := 999, tzOffset := -28800 },
    location := "B", description := "D2", url := "u2" }

/-- Witness for C3 at two concrete records. -/
theorem claim3_dedup_key_only_witness :
    (c3rec1.title = c3rec2.title ∧ c3rec1.start.utc = c3rec2.start.utc) ∧
    event_exists ["T|19700101T000140Z"] c3rec1.title c3rec1.start =
      event_exists ["T|19700101T000140Z"] c3rec2.title c3rec2.start :=
  ⟨⟨rfl, rfl⟩, (claim3_dedup_key_only ["T|19700101T000140Z"] c3rec1 c3rec2 rfl rfl).1⟩

/-! ## Claim C5 -/

/-- C5: whenever the start resolves, the entry is extracted with the
two-hour default end; a parseable MEC end date overrides the end to
that date at 17:00 local, and an unparseable one keeps the default
without skipping the entry. -/
theorem claim5_end_default_and_override (i : FeedItem) (s : PyDT)
    (ht : i.title ≠ "") (hs : resolvedStart i = some s) :
    ∃ ev, extract_event_details i = some ev ∧ ev.start = s ∧
      (parseYMD i.mec_enddate = none → ev.end_ = addSeconds s 7200) ∧
      (∀ n, parseYMD i.mec_enddate = some n →
        ev.end_ = localizeLA { n with hour := 17 }) := by
  have hex : extract_event_details i = some
      { title := i.title, start := s, end_ := endOf i s,
        location := locationOf i, description := descriptionOf i, url := i.link } := by
    unfold extract_event_details
    rw [if_neg ht, hs]
  refine ⟨_, hex, rfl, ?_, ?_⟩
  · intro hnone
    unfold endOf
    split
    · rw [hnone]
    · rfl
  · intro n hsome
    have hne : i.mec_enddate ≠ "" := by
      intro h
      rw [h, parseYMD_empty] at hsome
      exact Option.noConfusion hsome
    unfold endOf
    rw [if_pos hne, hsome]

/-- A concrete entry with a MEC start date and a corrupt MEC end
date. -/
def c5item : FeedItem :=
  { title := "Ev", published := "", mec_startdate := "2026-01-09",
    mec_enddate := "junk", mec_location := "", contentValue := "", link := "" }

/-- Witness for C5: the corrupt end date keeps the two-hour default
and the entry is still extracted. -/
theorem claim5_end_default_and_override_witness :
    (c5item.title ≠ "" ∧
      resolvedStart c5item = some { utc := 1767978000, tzOffset := -28800 }) ∧
    ∃ ev, extract_event_details c5item = some ev ∧
      ev.start = { utc := 1767978000, tzOffset := -28800 } ∧
      (parseYMD c5item.mec_enddate = none →
        ev.end_ = addSeconds { utc := 1767978000, tzOffset := -28800 } 7200) ∧
      (∀ n, parseYMD c5item.mec_enddate = some n →
        ev.end_ = localizeLA { n with hour := 17 }) :=
  ⟨⟨by decide, by decide⟩,
    claim5_end_default_and_override c5item { utc := 1767978000, tzOffset := -28800 }
      (by decide) (by decide)⟩

/-! ## Claim C6 -/

/-- C6: a nonempty title, no standard publish date, and a present but
unparseable MEC start date make the extractor skip the entry. -/
theorem claim6_corrupt_start_skipped (i : FeedItem) (ht : i.title ≠ "")
    (hp : i.published = "") (hm : i.mec_startdate ≠ "")
    (hparse : parseYMD i.mec_startdate = none) :
    extract_event_details i = none := by
  have hrs : resolvedStart i = none := by
    unfold resolvedStart
    rw [hp]
    simp [hm, hparse]
  unfold extract_event_details
  rw [if_neg ht, hrs]

/-- A concrete entry with a corrupt MEC start date and no publish
date. -/
def c6item : FeedItem :=
  { title := "X", published := "", mec_startdate := "not-a-date",
    mec_enddate := "", mec_location := "", contentValue := "", link := "" }

/-- Witness for C6 at a concrete entry. -/
theorem claim6_corrupt_start_skipped_witness :
    (c6item.title ≠ "" ∧ c6item.published = "" ∧ c6item.mec_startdate ≠ "" ∧
      parseYMD c6item.mec_startdate = none) ∧
    extract_event_details c6item = none :=
  ⟨⟨by decide, rfl, by decide, by decide⟩,
    claim6_corrupt_start_skipped c6item (by decide) rfl (by decide) (by decide)⟩

/-! ## Claim C4 (corrected) -/

/-- Counterexample to C4 as stated: with an existing calendar file
whose content is empty, a run with no feed entries exits 1 and writes
nothing, although the claim's single failure condition (no new events
AND no pre-existing file) does not hold — the file exists. -/
theorem claim4_counterexample :
    mainRun "2026-01-01T00:00:00" (some "") [] = (1, none) := by decide

/-- C4 amended: the failure test is emptiness of the *loaded dedup key
set* (which the missing-file case implies, but which also holds for an
existing file with no complete event block), together with zero new
events; in the failure case the run exits 1 writing nothing, otherwise
it writes the merged calendar and exits 0. -/
theorem claim4_amended (now : String) (fc : Option String) (items : List FeedItem) :
    ((mainRun now fc items).1 ≠ 0 ∧ (mainRun now fc items).2 = none ↔
      scrape_events (load_existing_events fc) items = [] ∧
        load_existing_events fc = []) ∧
    (fc = none → scrape_events [] items = [] → mainRun now fc items = (1, none)) ∧
    ((mainRun now fc items).1 = 0 →
      (mainRun now fc items).2 =
        some (generate_ics now (scrape_events (load_existing_events fc) items) fc)) := by
  simp only [mainRun]
  refine ⟨?_, ?_, ?_⟩
  · split
    · next h => exact iff_of_true (by simp) h
    · next h => exact iff_of_false (by simp) h
  · intro hfc hsc
    subst hfc
    simp [load_existing_events, hsc]
  · split
    · simp
    · simp

/-- Witness for C4 amended: a missing file and an empty feed fail. -/
theorem claim4_amended_witness : mainRun "t" none [] = (1, none) :=
  (claim4_amended "t" none []).2.1 rfl rfl

/-! ## Claim C8 (corrected) -/

/-- A concrete entry whose description mentions a location mid-line:
no line begins with `Location`, yet the unanchored regex matches. -/
def c8item : FeedItem :=
  { title := "T", published := "", mec_startdate := "2026-01-09",
    mec_enddate := "", mec_location := "",
    contentValue := "Meeting Location: Hall B", link := "" }

/-- Counterexample to C8 as stated: the extractor's pattern is not
line-oriented.  On a description whose only `Location` occurrence is
mid-line, the claim's rule (first *line beginning with* `Location`)
yields the empty location, but the code extracts `Hall B`. -/
theorem claim8_counterexample :
    (extract_event_details c8item).map EventRecord.location = some "Hall B" ∧
    specLocationScan (strip_html c8item.contentValue) = "" ∧
    c8item.mec_location = "" := by
  refine ⟨by decide, by decide, rfl⟩

/-- C8 amended: the extractor prefers a nonempty vendor location
field; otherwise it takes the first occurrence of `Location`
(case-insensitive, optional colon) *anywhere* in the cleaned
description — not only at line starts — skips whitespace (which may
cross a line break), captures the following run of non-newline
characters, and trims it; with no vendor field and no match the
location is empty. -/
theorem claim8_amended (i : FeedItem) (s : PyDT) (ht : i.title ≠ "")
    (hs : resolvedStart i = some s) :
    ∃ ev, extract_event_details i = some ev ∧
      ev.location = (if i.mec_location ≠ "" then i.mec_location
                     else locationFromDescription (descriptionOf i)) ∧
      (i.mec_location = "" → locSearch (descriptionOf i).data = none →
        ev.location = "") ∧
      (∀ g, i.mec_location = "" → locSearch (descriptionOf i).data = some g →
        ev.location = pyStrip ⟨g⟩) := by
  have hex : extract_event_details i = some
      { title := i.title, start := s, end_ := endOf i s,
        location := locationOf i, description := descriptionOf i, url := i.link } := by
    unfold extract_event_details
    rw [if_neg ht, hs]
  refine ⟨_, hex, rfl, ?_, ?_⟩
  · intro h0 hnone
    simp [locationOf, h0, locationFromDescription, hnone]
  · intro g h0 hsome
    simp [locationOf, h0, locationFromDescription, hsome]

/-- Witness for C8 amended, at the same concrete entry: the location
is the trimmed capture of the mid-line match. -/
theorem claim8_amended_witness :
    (c8item.title ≠ "" ∧
      resolvedStart c8item = some { utc := 1767978000, tzOffset := -28800 }) ∧
    ∃ ev, extract_event_details c8item = some ev ∧
      ev.location = (if c8item.mec_location ≠ "" then c8item.mec_location
                     else locationFromDescription (descriptionOf c8item)) ∧
      (c8item.mec_location = "" → locSearch (descriptionOf c8item).data = none →
        ev.location = "") ∧
      (∀ g, c8item.mec_location = "" → locSearch (descriptionOf c8item).data = some g →
        ev.location = pyStrip ⟨g⟩) :=
  ⟨⟨by decide, by decide⟩,
    claim8_amended c8item { utc := 1767978000, tzOffset := -28800 }
      (by decide) (by decide)⟩

/-! ## The generator's output structure (shared by C2 and C7) -/

/-- A string built from a character list headed by a non-space
character does not strip to empty. -/
theorem pyStrip_cons_ne_empty (c : Char) (cs : List Char)
    (hsp : pyIsSpace c = false) : pyStrip ⟨c :: cs⟩ ≠ "" := by
  intro hcon
  have h0 : (List.dropWhile pyIsSpace
      (List.dropWhile pyIsSpace (c :: cs)).reverse).reverse = [] :=
    congrArg String.data hcon
  rw [List.dropWhile_cons, if_neg (by simp [hsp]), List.reverse_eq_nil_iff,
    List.dropWhile_eq_nil_iff] at h0
  exact absurd (h0 c (by simp)) (by simp [hsp])

/-- A string whose first character differs from a prefix's first
character does not start with that prefix. -/
theorem pyStartsWith_false_of_head (s pre : String) (c c' : Char)
    (cs cs' : List Char) (hdata : s.data = c :: cs) (hpre : pre.data = c' :: cs')
    (hne : c' ≠ c) : pyStartsWith s pre = false := by
  unfold pyStartsWith
  rw [hdata, hpre]
  show (c' == c && List.isPrefixOf cs' cs) = false
  cases e : (c' == c) with
  | true => exact absurd (eq_of_beq e) hne
  | false => simp

/-- Every line of an event block survives the generator's line filter:
it strips nonempty and begins with neither `VERSION:` nor `PRODID:`. -/
theorem keepLine_block (e : EventRecord) : ∀ l ∈ eventBlockLines e, keepLine l = true := by
  have key : ∀ (c : Char) (cs : List Char) (s : String), s.data = c :: cs →
      pyIsSpace c = false → c ≠ 'V' → c ≠ 'P' → keepLine s = true := by
    intro c cs s hdata hsp hv hp
    unfold keepLine
    rw [pyStartsWith_false_of_head s "VERSION:" c 'V' cs "ERSION:".data hdata rfl
          (fun h => hv h.symm),
        pyStartsWith_false_of_head s "PRODID:" c 'P' cs "RODID:".data hdata rfl
          (fun h => hp h.symm)]
    have h1 : pyStrip s ≠ "" := by
      have : s = ⟨c :: cs⟩ := String.ext_iff.mpr hdata
      rw [this]
      exact pyStrip_cons_ne_empty c cs hsp
    simp [h1]
  intro l hl
  simp only [eventBlockLines, List.mem_cons] at hl
  rcases hl with h | h | h | h | h | h | h | h | h
  · exact key 'B' _ l (by rw [h]) (by decide) (by decide) (by decide)
  · exact key 'D' _ l (by rw [h]; rfl) (by decide) (by decide) (by decide)
  · exact key 'D' _ l (by rw [h]; rfl) (by decide) (by decide) (by decide)
  · exact key 'S' _ l (by rw [h]; rfl) (by decide) (by decide) (by decide)
  · exact key 'D' _ l (by rw [h]; rfl) (by decide) (by decide) (by decide)
  · exact key 'L' _ l (by rw [h]; rfl) (by decide) (by decide) (by decide)
  · exact key 'U' _ l (by rw [h]; rfl) (by decide) (by decide) (by decide)
  · exact key 'E' _ l (by rw [h]) (by decide) (by decide) (by decide)
  · exact absurd h (List.not_mem_nil l)

/-- The generator's output, in closed form: header, the blocks of the
validated new events, the preserved existing-block text, footer.  The
serialize-then-reparse line surgery of `generate_ics` recovers exactly
the new-event block lines. -/
theorem generate_ics_spec (now : String) (events : List EventRecord)
    (fc : Option String) :
    generate_ics now events fc =
      vcalHeader now ++ blocksText (events.filter keepEvent) ++
        (extractExisting fc).1 ++ "END:VCALENDAR\n" := by
  have hall : ∀ l ∈ ((events.filter keepEvent).map eventBlockLines).flatten,
      keepLine l = true := by
    intro l hl
    rw [List.mem_flatten] at hl
    obtain ⟨b, hb, hlb⟩ := hl
    rw [List.mem_map] at hb
    obtain ⟨e, _, rfl⟩ := hb
    exact keepLine_block e l hlb
  simp only [generate_ics, serializeCalendarLines]
  rw [show ∀ a b c : String, ∀ X : List String, List.drop 3 (a :: b :: c :: X) = X from
        fun _ _ _ _ => rfl,
      List.dropLast_concat, List.filter_eq_self.mpr hall]
  rfl

/-! ## Claim C7 -/

/-- C7: events whose end precedes their start are excluded from the
written file, every remaining event is still serialized, and the write
as a whole succeeds (the output is the well-formed merged calendar). -/
theorem claim7_invalid_end_excluded (now : String) (events : List EventRecord)
    (fc : Option String) :
    generate_ics now events fc =
      vcalHeader now ++ blocksText (events.filter keepEvent) ++
        (extractExisting fc).1 ++ "END:VCALENDAR\n" ∧
    ∀ e ∈ events, (e.end_.utc < e.start.utc ↔ e ∉ events.filter keepEvent) := by
  refine ⟨generate_ics_spec now events fc, ?_⟩
  intro e he
  simp [List.mem_filter, he, keepEvent]

/-- An event whose end precedes its start. -/
def c7bad : EventRecord :=
  { title := "Bad", start := { utc := 1000, tzOffset := -28800 },
    end_ := { utc := 500, tzOffset := -28800 },
    location := "", description := "", url := "" }

/-- Witness for C7: the invalid event is excluded from the filtered
list the output is built from. -/
theorem claim7_invalid_end_excluded_witness :
    c7bad ∈ [c7bad] ∧
    (c7bad.end_.utc < c7bad.start.utc ↔ c7bad ∉ [c7bad].filter keepEvent) :=
  ⟨by simp, (claim7_invalid_end_excluded "t" [c7bad] none).2 c7bad (by simp)⟩

/-! ## Claim C2 -/

/-- First concrete new event for the C2 merge instance. -/
def c2e1 : EventRecord :=
  { title := "New Event 1", start := { utc := 1766761200, tzOffset := -28800 },
    end_ := { utc := 1766768400, tzOffset := -28800 },
    location := "L1", description := "", url := "" }

/-- Second concrete new event for the C2 merge instance. -/
def c2e2 : EventRecord :=
  { title := "New Event 2", start := { utc := 1766840400, tzOffset := -28800 },
    end_ := { utc := 1766847600, tzOffset := -28800 },
    location := "L2", description := "", url := "" }

/-- A calendar file holding one pre-existing event block. -/
def c2file : String :=
  "BEGIN:VCALENDAR\nVERSION:2.0\nBEGIN:VEVENT\nSUMMARY:Existing Event\nDTSTART:20251225T170000Z\nDTEND:20251225T190000Z\nUID:x\nEND:VEVENT\nEND:VCALENDAR\n"

/-- The pre-existing block of `c2file`, with its exact byte content. -/
def c2block : String :=
  "BEGIN:VEVENT\nSUMMARY:Existing Event\nDTSTART:20251225T170000Z\nDTEND:20251225T190000Z\nUID:x\nEND:VEVENT\n"

set_option maxRecDepth 40000 in
/-- C2: merging valid new events writes the header, then the new-event
blocks, then the pre-existing blocks with their recorded text
unchanged, then the footer; in particular merging two new events into
a one-block file yields exactly three `BEGIN:VEVENT` occurrences with
the original block's byte content intact. -/
theorem claim2_merge_preserves (now : String) (events : List EventRecord)
    (content : String) (hv : ∀ e ∈ events, keepEvent e = true) :
    generate_ics now events (some content) =
      vcalHeader now ++ blocksText events ++
        (extractExisting (some content)).1 ++ "END:VCALENDAR\n" ∧
    countSub (generate_ics "T0" [c2e1, c2e2] (some c2file)) "BEGIN:VEVENT" = 3 ∧
    countSub (generate_ics "T0" [c2e1, c2e2] (some c2file)) c2block = 1 := by
  refine ⟨?_, by decide, by decide⟩
  rw [generate_ics_spec, List.filter_eq_self.mpr hv]

/-- Witness for C2 at the concrete merge instance. -/
theorem claim2_merge_preserves_witness :
    (∀ e ∈ [c2e1, c2e2], keepEvent e = true) ∧
    generate_ics "T0" [c2e1, c2e2] (some c2file) =
      vcalHeader "T0" ++ blocksText [c2e1, c2e2] ++
        (extractExisting (some c2file)).1 ++ "END:VCALENDAR\n" :=
  ⟨by decide, (claim2_merge_preserves "T0" [c2e1, c2e2] c2file (by decide)).1⟩

/-! ## Claim C10 -/

/-- Membership after a dict insertion. -/
theorem mem_dictInsert (acc : List String) (key k : String) :
    k ∈ dictInsert acc key ↔ k ∈ acc ∨ k = key := by
  unfold dictInsert
  split
  · next h =>
    constructor
    · exact Or.inl
    · rintro (hk | rfl)
      · exact hk
      · exact h
  · next h => simp

/-- Appending one line to a region updates its last-field value in one
step. -/
theorem lastFieldD_append (r : List String) (l pre dflt : String) :
    lastFieldD (r ++ [l]) pre dflt =
      if pyStartsWith l pre then pyDrop l 8 else lastFieldD r pre dflt := by
  unfold lastFieldD
  rw [List.foldl_append]
  rfl

/-- A `SUMMARY:` line is not a `DTSTART:` line. -/
theorem summary_not_dtstart (l : String)
    (h : pyStartsWith l "SUMMARY:" = true) : pyStartsWith l "DTSTART:" = false := by
  unfold pyStartsWith at h
  cases hd : l.data with
  | nil => rw [hd] at h; exact absurd h (by decide)
  | cons c cs =>
    rw [hd] at h
    have h' : ('S' == c && List.isPrefixOf "UMMARY:".data cs) = true := h
    have hc : c = 'S' := (eq_of_beq ((Bool.and_eq_true _ _ ▸ h').1)).symm
    subst hc
    exact pyStartsWith_false_of_head l "DTSTART:" 'S' 'D' cs "TSTART:".data hd rfl
      (by decide)

/-- The private loader scan agrees with the block-level reading: a key
is collected exactly when some block (under the matching scan state)
carries both a nonempty summary and a nonempty dtstart forming it.
The state invariant ties the loader's registers to the open region's
last-field values, and records that outside a block the leftover
registers' key is already collected (so a stray `END:VEVENT` adds
nothing new). -/
theorem loadLoop_mem_spec (k : String) :
    ∀ (lines : List String) (st : Option (List String)) (inEv : Bool)
      (sum dt : String) (acc : List String),
      (match st with
       | some region => inEv = true ∧ sum = lastFieldD region "SUMMARY:" "" ∧
           dt = lastFieldD region "DTSTART:" ""
       | none => inEv = false ∧ (sum = "" ∨ dt = "" ∨ (sum ++ "|" ++ dt) ∈ acc)) →
      (k ∈ loadLoop lines inEv sum dt acc ↔
        k ∈ acc ∨ ∃ p ∈ specScan lines st, p.1 ≠ "" ∧ p.2 ≠ "" ∧
          k = p.1 ++ "|" ++ p.2) := by
  intro lines
  induction lines with
  | nil =>
    intro st inEv sum dt acc hinv
    simp [loadLoop, specScan]
  | cons line rest ih =>
    intro st inEv sum dt acc hinv
    rw [loadLoop]
    cases st with
    | none =>
      obtain ⟨hev, hdisj⟩ := hinv
      subst hev
      rw [specScan]
      cases hb : pyStartsWith line "BEGIN:VEVENT" with
      | true =>
        simp only [hb, if_true]
        exact ih (some []) true "" "" acc ⟨rfl, rfl, rfl⟩
      | false =>
        simp only [hb, Bool.false_eq_true, if_false]
        cases he : pyStartsWith line "END:VEVENT" with
        | true =>
          simp only [he, if_true]
          by_cases hcond : sum ≠ "" ∧ dt ≠ ""
          · have hkey : (sum ++ "|" ++ dt) ∈ acc := by
              rcases hdisj with h | h | h
              · exact absurd h hcond.1
              · exact absurd h hcond.2
              · exact h
            have hdict : dictInsert acc (sum ++ "|" ++ dt) = acc := by
              unfold dictInsert
              rw [if_pos hkey]
            rw [if_pos hcond, hdict]
            exact ih none false sum dt acc ⟨rfl, hdisj⟩
          · rw [if_neg hcond]
            exact ih none false sum dt acc ⟨rfl, hdisj⟩
        | false =>
          simp only [he, Bool.false_eq_true, if_false]
          exact ih none false sum dt acc ⟨rfl, hdisj⟩
    | some region =>
      obtain ⟨hev, hsum, hdt⟩ := hinv
      subst hev
      rw [specScan]
      cases hb : pyStartsWith line "BEGIN:VEVENT" with
      | true =>
        simp only [hb, if_true]
        exact ih (some []) true "" "" acc ⟨rfl, rfl, rfl⟩
      | false =>
        simp only [hb, Bool.false_eq_true, if_false]
        cases he : pyStartsWith line "END:VEVENT" with
        | true =>
          simp only [he, if_true]
          by_cases hcond : sum ≠ "" ∧ dt ≠ ""
          · rw [if_pos hcond,
              ih none false sum dt (dictInsert acc (sum ++ "|" ++ dt))
                ⟨rfl, Or.inr (Or.inr ((mem_dictInsert _ _ _).mpr (Or.inr rfl)))⟩,
              mem_dictInsert]
            rw [← hsum, ← hdt]
            simp only [List.mem_cons, exists_eq_or_imp]
            constructor
            · rintro ((hk | rfl) | hX)
              · exact Or.inl hk
              · exact Or.inr (Or.inl ⟨hcond.1, hcond.2, rfl⟩)
              · exact Or.inr (Or.inr hX)
            · rintro (hk | ⟨_, _, rfl⟩ | hX)
              · exact Or.inl (Or.inl hk)
              · exact Or.inl (Or.inr rfl)
              · exact Or.inr hX
          · rw [if_neg hcond,
              ih none false sum dt acc
                ⟨rfl, by
                  rcases Decidable.not_and_iff_or_not.mp hcond with h | h
                  · exact Or.inl (Decidable.not_not.mp h)
                  · exact Or.inr (Or.inl (Decidable.not_not.mp h))⟩]
            rw [← hsum, ← hdt]
            simp only [List.mem_cons, exists_eq_or_imp]
            constructor
            · rintro (hk | hX)
              · exact Or.inl hk
              · exact Or.inr (Or.inr hX)
            · rintro (hk | ⟨h1, h2, rfl⟩ | hX)
              · exact Or.inl hk
              · exact absurd ⟨h1, h2⟩ hcond
              · exact Or.inr hX
        | false =>
          simp only [he, Bool.false_eq_true, if_false, if_true]
          cases hsm : pyStartsWith line "SUMMARY:" with
          | true =>
            simp only [hsm, if_true]
            exact ih (some (region ++ [line])) true (pyDrop line 8) dt acc
              ⟨rfl, by rw [lastFieldD_append, if_pos hsm],
                by rw [lastFieldD_append, if_neg (by
                    rw [summary_not_dtstart line hsm]; exact Bool.false_ne_true), ← hdt]⟩
          | false =>
            simp only [hsm, Bool.false_eq_true, if_false]
            cases hdst : pyStartsWith line "DTSTART:" with
            | true =>
              simp only [hdst, if_true]
              exact ih (some (region ++ [line])) true sum (pyDrop line 8) acc
                ⟨rfl, by rw [lastFieldD_append, if_neg (by
                    rw [hsm]; exact Bool.false_ne_true), ← hsum],
                  by rw [lastFieldD_append, if_pos hdst]⟩
            | false =>
              simp only [hdst, Bool.false_eq_true, if_false]
              exact ih (some (region ++ [line])) true sum dt acc
                ⟨rfl, by rw [lastFieldD_append, if_neg (by
                    rw [hsm]; exact Bool.false_ne_true), ← hsum],
                  by rw [lastFieldD_append, if_neg (by
                    rw [hdst]; exact Bool.false_ne_true), ← hdt]⟩

/-- C10: the loaded dedup set holds exactly the keys of blocks with a
nonempty `SUMMARY:` and a nonempty `DTSTART:` line — an incomplete
block contributes no key — and an incoming event is a duplicate
exactly when its key agrees with such a block's key. -/
theorem claim10_loader_requires_summary_and_dtstart (content : String) :
    (∀ k, k ∈ load_existing_events (some content) ↔
      ∃ p ∈ specBlocks (pySplit content '\n'), p.1 ≠ "" ∧ p.2 ≠ "" ∧
        k = p.1 ++ "|" ++ p.2) ∧
    (∀ t s, event_exists (load_existing_events (some content)) t s = true ↔
      ∃ p ∈ specBlocks (pySplit content '\n'), p.1 ≠ "" ∧ p.2 ≠ "" ∧
        t ++ "|" ++ formatUTC s.utc = p.1 ++ "|" ++ p.2) := by
  have hmem : ∀ k, k ∈ load_existing_events (some content) ↔
      ∃ p ∈ specBlocks (pySplit content '\n'), p.1 ≠ "" ∧ p.2 ≠ "" ∧
        k = p.1 ++ "|" ++ p.2 := by
    intro k
    unfold load_existing_events specBlocks
    rw [loadLoop_mem_spec k (pySplit content '\n') none false "" "" []
        ⟨rfl, Or.inl rfl⟩]
    simp
  refine ⟨hmem, fun t s => ?_⟩
  rw [show event_exists (load_existing_events (some content)) t s =
        List.elem (t ++ "|" ++ formatUTC s.utc)
          (load_existing_events (some content)) from rfl,
    List.elem_iff]
  exact hmem _

/-! ## Claim C9 (corrected): support lemmas -/

/-- Appending strings appends their character data. -/
theorem data_append (s t : String) : (s ++ t).data = s.data ++ t.data := rfl

/-- Unfolds `plainText` into the three exclusions. -/
theorem plainText_props (s : String) (h : plainText s = true) :
    '<' ∉ s.data ∧ '>' ∉ s.data ∧ '&' ∉ s.data := by
  unfold plainText at h
  rw [List.all_eq_true] at h
  refine ⟨fun hc => ?_, fun hc => ?_, fun hc => ?_⟩ <;>
    simpa using h _ hc

/-- An alphabetic character neither delimits a tag name nor closes a
tag. -/
theorem alpha_char_facts (c : Char) (h : c.isAlpha = true) :
    tagNameDelim c = false ∧ c ≠ '>' ∧ c ≠ '<' := by
  refine ⟨?_, fun hc => ?_, fun hc => ?_⟩
  · unfold tagNameDelim
    simp only [Bool.or_eq_false_iff, decide_eq_false_iff_not]
    refine ⟨⟨⟨⟨⟨⟨⟨?_, ?_⟩, ?_⟩, ?_⟩, ?_⟩, ?_⟩, ?_⟩, ?_⟩ <;>
      (intro hc; subst hc; exact absurd h (by decide))
  · subst hc; exact absurd h (by decide)
  · subst hc; exact absurd h (by decide)

/-- Decomposes a well-formed tag name. -/
theorem okTagName_props (n : String) (h : okTagName n = true) :
    n.data ≠ [] ∧ (∀ c ∈ n.data, c.isAlpha = true) ∧
      n.data.map Char.toLower ≠ "script".data ∧
      n.data.map Char.toLower ≠ "style".data := by
  unfold okTagName at h
  simp only [Bool.and_eq_true, decide_eq_true_eq, List.all_eq_true] at h
  exact ⟨h.1.1.1, h.1.1.2, h.1.2, h.2⟩

/-- The first-`<` split on a list without `<`. -/
theorem findLt_no_lt (l : List Char) (h : '<' ∉ l) : findLt l = (l, none) := by
  induction l with
  | nil => rfl
  | cons c cs ih =>
    have hc : ¬ c = '<' := by
      intro hcc
      subst hcc
      exact h (List.mem_cons_self _ _)
    rw [findLt, if_neg hc, ih (fun hm => h (List.mem_cons_of_mem c hm))]

/-- The first-`<` split just before an explicit `<`. -/
theorem findLt_split (pre : List Char) (tail : List Char) (h : '<' ∉ pre) :
    findLt (pre ++ '<' :: tail) = (pre, some ('<' :: tail)) := by
  induction pre with
  | nil => rfl
  | cons c cs ih =>
    have hc : ¬ c = '<' := by
      intro hcc
      subst hcc
      exact h (List.mem_cons_self _ _)
    rw [List.cons_append, findLt, if_neg hc,
      ih (fun hm => h (List.mem_cons_of_mem c hm))]

/-- No `&` means no pending-ampersand suffix. -/
theorem lastAmpSuffix_none (l : List Char) (h : '&' ∉ l) :
    lastAmpSuffix l = none := by
  induction l with
  | nil => rfl
  | cons c cs ih =>
    have hc : ¬ c = '&' := by
      intro hcc
      subst hcc
      exact h (List.mem_cons_self _ _)
    rw [lastAmpSuffix, ih (fun hm => h (List.mem_cons_of_mem c hm)), if_neg hc]

/-- Trailing data without `&` is never held back as a possibly
incomplete character reference. -/
theorem ampPending_no_amp (l : List Char) (h : '&' ∉ l) :
    ampPending l = false := by
  have h0 : lastAmpSuffix (l.drop (l.length - 34)) = none :=
    lastAmpSuffix_none _ (fun hc => h (List.mem_of_mem_drop hc))
  unfold ampPending
  simp only [h0]

/-- The fueled unescape is the identity on `&`-free data. -/
theorem pyUnescapeF_id (f : Nat) : ∀ (l : List Char), l.length ≤ f → '&' ∉ l →
    pyUnescapeF f l = l := by
  induction f with
  | zero => intro l _ _; rfl
  | succ f ih =>
    intro l hlen hamp
    match l with
    | [] => rfl
    | c :: cs =>
      have hc : ¬ c = '&' := by
        intro hcc
        subst hcc
        exact hamp (List.mem_cons_self _ _)
      rw [pyUnescapeF, if_neg hc,
        ih cs (by simpa using Nat.le_of_succ_le_succ hlen)
          (fun hm => hamp (List.mem_cons_of_mem c hm))]

/-- Unescape is the identity on `&`-free data. -/
theorem pyUnescape_id (l : List Char) (h : '&' ∉ l) : pyUnescape l = l :=
  pyUnescapeF_id (l.length + 1) l (Nat.le_succ _) h

/-- `scanToGt` consumes up to an explicit `>`. -/
theorem scanToGt_past (xs ys : List Char) (h : '>' ∉ xs) :
    scanToGt (xs ++ '>' :: ys) = some ys := by
  induction xs with
  | nil => rfl
  | cons c cs ih =>
    have hc : ¬ c = '>' := by
      intro hcc
      subst hcc
      exact h (List.mem_cons_self _ _)
    rw [List.cons_append, scanToGt, if_neg hc,
      ih (fun hm => h (List.mem_cons_of_mem c hm))]

/-- `takeWhile` stops exactly at the first failing element. -/
theorem takeWhile_prefix_stop (p : Char → Bool) (xs : List Char) (y : Char)
    (ys : List Char) (hx : ∀ x ∈ xs, p x = true) (hy : p y = false) :
    List.takeWhile p (xs ++ y :: ys) = xs := by
  induction xs with
  | nil => simp [List.takeWhile_cons, hy]
  | cons c cs ih =>
    rw [List.cons_append, List.takeWhile_cons,
      if_pos (hx c (List.mem_cons_self c cs)),
      ih (fun x hm => hx x (List.mem_cons_of_mem c hm))]

/-- Reading a well-formed start tag: the name scan stops at the `>`,
which closes the tag immediately. -/
theorem scanStart_simple (nd : List Char) (rest : List Char)
    (hall : ∀ c ∈ nd, c.isAlpha = true) :
    scanStart (nd ++ '>' :: rest) = some (nd.map Char.toLower, rest) := by
  unfold scanStart
  rw [takeWhile_prefix_stop _ nd '>' rest
      (fun x hx => by rw [(alpha_char_facts x (hall x hx)).1]; rfl)
      (by decide),
    List.drop_left]
  rfl

/-- One `goahead` tick consumes plain text followed by one well-formed
tag, emitting exactly that text. -/
theorem goahead_step (f : Nat) (pre : List Char)
    (hplt : '<' ∉ pre) (hpamp : '&' ∉ pre)
    (p : HPiece) (hnt : isTxt p = false) (hok : okPiece p = true)
    (rest acc : List Char) :
    goahead (f + 1) HMode.normal acc (pre ++ (renderPiece p).data ++ rest) =
      goahead f HMode.normal (acc ++ pre) rest := by
  cases p with
  | txt s => exact absurd hnt (by simp [isTxt])
  | tagO n =>
    obtain ⟨hne, hall, hscr, hsty⟩ := okTagName_props n hok
    obtain ⟨c, ns, hn⟩ : ∃ c ns, n.data = c :: ns := by
      cases hd : n.data with
      | nil => exact absurd hd hne
      | cons c ns => exact ⟨c, ns, rfl⟩
    have hcalpha : c.isAlpha = true := hall c (by rw [hn]; exact List.mem_cons_self _ _)
    have hcs : pre ++ (renderPiece (HPiece.tagO n)).data ++ rest =
        pre ++ '<' :: (c :: (ns ++ '>' :: rest)) := by
      simp [renderPiece, data_append, hn]
    have hscan : scanStart (c :: (ns ++ '>' :: rest)) =
        some ((c :: ns).map Char.toLower, rest) := by
      have := scanStart_simple n.data rest hall
      rw [hn] at this
      simpa using this
    have hscr' : ¬ (c :: ns).map Char.toLower = "script".data := by
      rw [← hn]; exact hscr
    have hsty' : ¬ (c :: ns).map Char.toLower = "style".data := by
      rw [← hn]; exact hsty
    have hcond : ¬(c.toLower = 's' ∧ List.map Char.toLower ns = ['c', 'r', 'i', 'p', 't'] ∨
        c.toLower = 's' ∧ List.map Char.toLower ns = ['t', 'y', 'l', 'e']) := by
      rintro (⟨h1, h2⟩ | ⟨h1, h2⟩)
      · exact hscr' (by rw [List.map_cons, h1, h2])
      · exact hsty' (by rw [List.map_cons, h1, h2])
    rw [hcs, goahead, findLt_split pre _ hplt]
    simp [pyUnescape_id pre hpamp, hcalpha, hscan]
    intro hP
    exact absurd hP hcond
  | tagC n =>
    obtain ⟨hne, hall, _, _⟩ := okTagName_props n hok
    have hgt : '>' ∉ n.data := fun hm => (alpha_char_facts _ (hall _ hm)).2.1 rfl
    have hcs : pre ++ (renderPiece (HPiece.tagC n)).data ++ rest =
        pre ++ '<' :: ('/' :: (n.data ++ '>' :: rest)) := by
      simp [renderPiece, data_append]
    rw [hcs, goahead, findLt_split pre _ hplt]
    simp [pyUnescape_id pre hpamp, scanToGt_past n.data rest hgt]

/-- A final run of plain text is emitted unescaped-as-is. -/
theorem goahead_final_text (f : Nat) (s : List Char) (hlt : '<' ∉ s)
    (hamp : '&' ∉ s) (acc : List Char) :
    goahead (f + 1) HMode.normal acc s = acc ++ s := by
  rw [goahead, findLt_no_lt s hlt]
  simp [ampPending_no_amp s hamp, pyUnescape_id s hamp]

/-- The head of a well-formed fragment list is well-formed. -/
theorem okPieces_head (p : HPiece) (l : List HPiece)
    (h : okPieces (p :: l) = true) : okPiece p = true := by
  cases l with
  | nil => exact h
  | cons q rest =>
    simp only [okPieces, Bool.and_eq_true] at h
    exact h.1.1

/-- The tail of a well-formed fragment list is well-formed. -/
theorem okPieces_tail (p : HPiece) (l : List HPiece)
    (h : okPieces (p :: l) = true) : okPieces l = true := by
  cases l with
  | nil => rfl
  | cons q rest =>
    simp only [okPieces, Bool.and_eq_true] at h
    exact h.2

/-- Adjacent fragments of a well-formed list are not both text. -/
theorem okPieces_not_adjacent (p q : HPiece) (l : List HPiece)
    (h : okPieces (p :: q :: l) = true) : (isTxt p && isTxt q) = false := by
  simp only [okPieces, Bool.and_eq_true] at h
  rcases h with ⟨⟨_, hb⟩, _⟩
  rwa [Bool.not_eq_true'] at hb

/-- Tags carry no text. -/
theorem textOfPiece_not_txt (p : HPiece) (h : isTxt p = false) :
    textOfPiece p = "" := by
  cases p with
  | txt s => exact absurd h (by simp [isTxt])
  | tagO n => rfl
  | tagC n => rfl

/-- A rendered tag is nonempty. -/
theorem renderPiece_len_pos (p : HPiece) (h : isTxt p = false) :
    1 ≤ (renderPiece p).data.length := by
  cases p with
  | txt s => exact absurd h (by simp [isTxt])
  | tagO n => simp [renderPiece, data_append]
  | tagC n => simp [renderPiece, data_append]

/-- The stripper on rendered well-formed fragments accumulates exactly
the text fragments, in order. -/
theorem goahead_render : ∀ (f : Nat) (ps : List HPiece) (acc : List Char),
    okPieces ps = true → (renderPieces ps).data.length + 1 ≤ f →
    goahead f HMode.normal acc (renderPieces ps).data = acc ++ (textsOf ps).data := by
  intro f
  induction f with
  | zero =>
    intro ps acc _ hf
    exact absurd hf (by omega)
  | succ f ih =>
    intro ps acc hok hf
    match ps with
    | [] =>
      rw [show (renderPieces []).data = ([] : List Char) from rfl,
        show (textsOf []).data = ([] : List Char) from rfl,
        goahead_final_text f [] (by simp) (by simp) acc]
    | [HPiece.txt s] =>
      have hps : plainText s = true := by
        have h0 : okPiece (HPiece.txt s) = true := okPieces_head _ _ hok
        simp only [okPiece, Bool.and_eq_true] at h0
        exact h0.1
      obtain ⟨hlt, _, hamp⟩ := plainText_props s hps
      rw [show (renderPieces [HPiece.txt s]).data = s.data from by
            simp [renderPieces, renderPiece, data_append],
        show (textsOf [HPiece.txt s]).data = s.data from by
            simp [textsOf, textOfPiece, data_append],
        goahead_final_text f s.data hlt hamp acc]
    | HPiece.txt s :: q :: rest2 =>
      have hps : plainText s = true := by
        have h0 : okPiece (HPiece.txt s) = true := okPieces_head _ _ hok
        simp only [okPiece, Bool.and_eq_true] at h0
        exact h0.1
      obtain ⟨hlt, _, hamp⟩ := plainText_props s hps
      have hq : isTxt q = false := by
        have h0 := okPieces_not_adjacent _ _ _ hok
        simpa [isTxt] using h0
      have hokq : okPiece q = true := okPieces_head _ _ (okPieces_tail _ _ hok)
      have hok2 : okPieces rest2 = true := okPieces_tail _ _ (okPieces_tail _ _ hok)
      have hrender : (renderPieces (HPiece.txt s :: q :: rest2)).data =
          s.data ++ (renderPiece q).data ++ (renderPieces rest2).data := by
        simp [renderPieces, renderPiece, data_append]
      have hf2 : (renderPieces rest2).data.length + 1 ≤ f := by
        have h1 := renderPiece_len_pos q hq
        rw [hrender] at hf
        simp only [List.length_append] at hf
        omega
      rw [hrender, goahead_step f s.data hlt hamp q hq hokq _ acc,
        ih rest2 (acc ++ s.data) hok2 hf2,
        show (textsOf (HPiece.txt s :: q :: rest2)).data =
          s.data ++ (textsOf rest2).data from by
            simp only [textsOf]
            rw [textOfPiece_not_txt q hq]
            simp [textOfPiece, data_append]]
      simp
    | HPiece.tagO n :: rest2 =>
      have hq : isTxt (HPiece.tagO n) = false := rfl
      have hokq : okPiece (HPiece.tagO n) = true := okPieces_head _ _ hok
      have hok2 : okPieces rest2 = true := okPieces_tail _ _ hok
      have hrender : (renderPieces (HPiece.tagO n :: rest2)).data =
          [] ++ (renderPiece (HPiece.tagO n)).data ++ (renderPieces rest2).data := by
        simp [renderPieces, data_append]
      have hf2 : (renderPieces rest2).data.length + 1 ≤ f := by
        have h1 := renderPiece_len_pos (HPiece.tagO n) hq
        rw [hrender] at hf
        simp only [List.length_append] at hf
        omega
      rw [hrender, goahead_step f [] (by simp) (by simp) (HPiece.tagO n) hq hokq _ acc,
        ih rest2 (acc ++ []) hok2 hf2,
        show (textsOf (HPiece.tagO n :: rest2)).data = (textsOf rest2).data from by
          simp [textsOf, textOfPiece, data_append]]
      simp
    | HPiece.tagC n :: rest2 =>
      have hq : isTxt (HPiece.tagC n) = false := rfl
      have hokq : okPiece (HPiece.tagC n) = true := okPieces_head _ _ hok
      have hok2 : okPieces rest2 = true := okPieces_tail _ _ hok
      have hrender : (renderPieces (HPiece.tagC n :: rest2)).data =
          [] ++ (renderPiece (HPiece.tagC n)).data ++ (renderPieces rest2).data := by
        simp [renderPieces, data_append]
      have hf2 : (renderPieces rest2).data.length + 1 ≤ f := by
        have h1 := renderPiece_len_pos (HPiece.tagC n) hq
        rw [hrender] at hf
        simp only [List.length_append] at hf
        omega
      rw [hrender, goahead_step f [] (by simp) (by simp) (HPiece.tagC n) hq hokq _ acc,
        ih rest2 (acc ++ []) hok2 hf2,
        show (textsOf (HPiece.tagC n :: rest2)).data = (textsOf rest2).data from by
          simp [textsOf, textOfPiece, data_append]]
      simp

/-- Rendering a nonempty well-formed fragment list is nonempty. -/
theorem renderPieces_empty_iff (ps : List HPiece) (hok : okPieces ps = true)
    (hcon : renderPieces ps = "") : ps = [] := by
  cases ps with
  | nil => rfl
  | cons p rest =>
    have hd : (renderPiece p).data ++ (renderPieces rest).data = [] := by
      have h0 := congrArg String.data hcon
      rw [show (renderPieces (p :: rest)).data =
        (renderPiece p).data ++ (renderPieces rest).data from rfl] at h0
      exact h0
    have h1 : (renderPiece p).data ≠ [] := by
      have hokp := okPieces_head _ _ hok
      cases p with
      | txt s =>
        simp only [okPiece, Bool.and_eq_true] at hokp
        have hs : s ≠ "" := by simpa using hokp.2
        intro hdd
        exact hs (String.ext hdd)
      | tagO n => simp [renderPiece, data_append]
      | tagC n => simp [renderPiece, data_append]
    exact absurd (List.append_eq_nil.mp hd).1 h1

/-- The text fragments of a well-formed list contain no angle
brackets. -/
theorem textsOf_no_angle : ∀ (ps : List HPiece), okPieces ps = true →
    ∀ c ∈ (textsOf ps).data, c ≠ '<' ∧ c ≠ '>' := by
  intro ps
  induction ps with
  | nil =>
    intro _ c hc
    exact absurd hc (List.not_mem_nil c)
  | cons p rest ihp =>
    intro hok c hc
    rw [show (textsOf (p :: rest)).data =
      (textOfPiece p).data ++ (textsOf rest).data from rfl] at hc
    rcases List.mem_append.mp hc with hc | hc
    · cases p with
      | txt s =>
        have hps : plainText s = true := by
          have h0 := okPieces_head _ _ hok
          simp only [okPiece, Bool.and_eq_true] at h0
          exact h0.1
        unfold plainText at hps
        rw [List.all_eq_true] at hps
        have h1 := hps c hc
        simp only [Bool.and_eq_true, decide_eq_true_eq] at h1
        exact ⟨h1.1.1, h1.1.2⟩
      | tagO n => exact absurd hc (List.not_mem_nil c)
      | tagC n => exact absurd hc (List.not_mem_nil c)
    · exact ihp (okPieces_tail _ _ hok) c hc

/-- Counterexample to C9 as stated: the cleaner resolves character
references (as the claim itself requires), so `&lt;` inside a tagged
text becomes a literal `<` in the output — the output of an input with
markup tags can contain `<`. -/
theorem claim9_counterexample :
    strip_html "<b>&lt;</b>" = "<" ∧
    '<' ∈ (strip_html "<b>&lt;</b>").data := by
  exact ⟨by decide, by decide⟩

/-- C9 amended: for markup built from plain-text segments (free of
angle brackets and character references) interleaved with well-formed
non-CDATA tags, `strip_html` returns exactly the non-tag text segments
in order, which in particular contain no `<` or `>`; empty input
yields the empty string (and the function is total, so malformed
markup never raises). -/
theorem claim9_amended (ps : List HPiece) (hok : okPieces ps = true) :
    strip_html (renderPieces ps) = textsOf ps ∧
    (∀ c ∈ (strip_html (renderPieces ps)).data, c ≠ '<' ∧ c ≠ '>') ∧
    strip_html "" = "" := by
  have hmain : strip_html (renderPieces ps) = textsOf ps := by
    by_cases hps : renderPieces ps = ""
    · rw [hps, renderPieces_empty_iff ps hok hps]
      rfl
    · unfold strip_html
      rw [if_neg hps,
        goahead_render ((renderPieces ps).data.length + 1) ps [] hok (le_refl _)]
      exact String.ext (by simp)
  refine ⟨hmain, ?_, rfl⟩
  rw [hmain]
  exact textsOf_no_angle ps hok

/-- A concrete well-formed fragment list for the C9 witness. -/
def c9pieces : List HPiece :=
  [HPiece.tagO "p", HPiece.txt "Hello ", HPiece.tagO "b", HPiece.txt "world",
   HPiece.tagC "b", HPiece.tagC "p"]

/-- Witness for C9 amended at a concrete fragment list. -/
theorem claim9_amended_witness :
    okPieces c9pieces = true ∧
    (strip_html (renderPieces c9pieces) = textsOf c9pieces ∧
      (∀ c ∈ (strip_html (renderPieces c9pieces)).data, c ≠ '<' ∧ c ≠ '>') ∧
      strip_html "" = "") :=
  ⟨by decide, claim9_amended c9pieces (by decide)⟩

end Salam
